import Mathlib

/-!
# Verification of the audio generation pipeline of hypno-ai

Shallow embedding of the core of `app/audio/audio.py` (class `AudioGenerator`),
`app/utils/utils.py` (`slugify`), and the progress-callback contract of
`app/tasks/base_task_manager.py`, together with proofs about the segmenter,
the parallel synthesis pool, the assembler and the orchestrator fallback.

Python strings are modelled as Lean `String`s with all operations implemented
over the underlying character lists so that every definition evaluates inside
the kernel.  The external collaborators (the TTS backend, the filesystem and
`pydub`) are modelled as explicit parameters: a `Backend` record for
`get_tts_model` / `tts_to_file`, and a file-duration environment
`fd : String → Nat` for `AudioSegment.from_file(...)`'s length in
milliseconds.
-/

namespace HypnoAI

/-! ## Python string primitives -/

/-- Characters treated as whitespace by Python's `str.strip()`
(restricted to the ASCII range; the pipeline never feeds exotic Unicode
whitespace to `strip`). -/
def pySpaceChar (c : Char) : Bool :=
  c = ' ' || c = '\t' || c = '\n' || c = '\r' || c = '\x0b' || c = '\x0c'

/-- Strip characters satisfying `p` from both ends of a character list. -/
def stripChars (p : Char → Bool) (l : List Char) : List Char :=
  (((l.dropWhile p).reverse).dropWhile p).reverse

/-- Python `str.strip()` (no argument: strip whitespace). -/
def pyStrip (s : String) : String :=
  ⟨stripChars pySpaceChar s.data⟩

/-- Python truthiness of a string: `bool(s)` is `True` iff `s` is non-empty. -/
def pyTruthy (s : String) : Bool :=
  !s.data.isEmpty

/-- Worker for `pySplit`: scans the character list left to right; `skip` counts
separator characters still to be consumed after a match; `cur` is the current
part accumulated in reverse. -/
def pySplitGo (sep : List Char) : List Char → Nat → List Char → List (List Char)
  | [], _, cur => [cur.reverse]
  | _ :: rest, k + 1, cur => pySplitGo sep rest k cur
  | c :: rest, 0, cur =>
    if sep.isPrefixOf (c :: rest) then
      cur.reverse :: pySplitGo sep rest (sep.length - 1) []
    else
      pySplitGo sep rest 0 (c :: cur)

/-- Python `str.split(sep)` for a non-empty separator: split on every
left-to-right non-overlapping occurrence, keeping empty parts. -/
def pySplit (sep s : String) : List String :=
  (pySplitGo sep.data s.data 0 []).map String.mk

/-- Python `str.startswith(pre)`. -/
def pyStartsWith (pre s : String) : Bool :=
  pre.data.isPrefixOf s.data

/-! ## Data model: segments

The Python code represents a prepared segment as the pair
`(segment_text, (segment_index, segment_type))` with the type codes
`0` = normal text, `1` = heading, `2` = line break, `3` = ellipsis part,
`4` = ellipsis pause, `5` = `[break]` pause. -/

structure Seg where
  text : String
  index : Nat
  stype : Nat
deriving DecidableEq, Repr

/-- The segment-type codes that are speakable text (`Speech` in the spec). -/
def isSpeechType (t : Nat) : Bool := t = 0 || t = 1 || t = 3

/-- The segment-type codes that are pause markers. -/
def isPauseType (t : Nat) : Bool := t = 2 || t = 4 || t = 5

/-! ## The segmenter: `AudioGenerator._prepare_segments`

The Python function threads a growing `segments` list and a running
`segment_index` counter through three nested loops; the state is the pair
`(segments, segment_index)`.  Each `for x in xs ... if <position> < len(xs)-1`
loop is translated into structural recursion on the list, where
`rest.isEmpty` decides whether the current element is the last one. -/

abbrev SegState := List Seg × Nat

/-- Inner loop over `line.split("...")` (type 3 parts, type 4 pauses). -/
def procEllipsisParts : List String → SegState → SegState
  | [], st => st
  | ep :: rest, (segs, idx) =>
    -- `if not ellipsis_part.strip(): continue`
    if ¬ pyTruthy (pyStrip ep) then procEllipsisParts rest (segs, idx)
    else
      let st1 : SegState := (segs ++ [⟨pyStrip ep, idx, 3⟩], idx + 1)
      -- `if k < len(ellipsis_parts) - 1:` add an ellipsis-pause marker
      let st2 : SegState :=
        if rest.isEmpty then st1 else (st1.1 ++ [⟨"", st1.2, 4⟩], st1.2 + 1)
      procEllipsisParts rest st2

/-- Body of the loop over the lines of one `[break]` part.  `isLast` states
whether this is the last line of the part (`j = len(lines) - 1`). -/
def procLine (line : String) (isLast : Bool) (st : SegState) : SegState :=
  -- `if not line.strip(): continue`
  if ¬ pyTruthy (pyStrip line) then st
  else
    let st1 : SegState :=
      -- `if line.strip().startswith("###")`: type 1 = heading
      if pyStartsWith "###" (pyStrip line) then
        (st.1 ++ [⟨pyStrip line, st.2, 1⟩], st.2 + 1)
      else
        -- `elif "..." in line`: equivalent to `line.split("...")` having ≥ 2 parts
        let eps := pySplit "..." line
        if 1 < eps.length then procEllipsisParts eps st
        -- `else`: type 0 = normal text
        else (st.1 ++ [⟨pyStrip line, st.2, 0⟩], st.2 + 1)
    -- `if j < len(lines) - 1:` add a line-break marker (type 2)
    if isLast then st1 else (st1.1 ++ [⟨"", st1.2, 2⟩], st1.2 + 1)

/-- Loop over the lines of one `[break]` part. -/
def procLines : List String → SegState → SegState
  | [], st => st
  | l :: rest, st => procLines rest (procLine l rest.isEmpty st)

/-- Body of the loop over `text.split("[break]")`.  `isLast` states whether
this is the last part (`i = len(break_parts) - 1`). -/
def procPart (part : String) (isLast : Bool) (st : SegState) : SegState :=
  -- `if not part.strip(): continue`
  if ¬ pyTruthy (pyStrip part) then st
  else
    let st1 := procLines (pySplit "\n" part) st
    -- `if i < len(break_parts) - 1:` add a `[break]` marker (type 5)
    if isLast then st1 else (st1.1 ++ [⟨"", st1.2, 5⟩], st1.2 + 1)

/-- Loop over the `[break]` parts. -/
def procParts : List String → SegState → SegState
  | [], st => st
  | p :: rest, st => procParts rest (procPart p rest.isEmpty st)

/-- `AudioGenerator._prepare_segments(text)`: split on `[break]`, then on
newlines, then headings / ellipses, and finally filter
(`if text.strip() or info[1] in (2, 4, 5)`). -/
def prepareSegments (text : String) : List Seg :=
  let st := procParts (pySplit "[break]" text) ([], 0)
  st.1.filter (fun s => pyTruthy (pyStrip s.text) || isPauseType s.stype)

/-- Number of Speech segments (`N` in the spec's pool contract). -/
def speechCount (segs : List Seg) : Nat :=
  segs.countP (fun s => isSpeechType s.stype)

/-- Number of pause segments (`P` in the spec's pool contract). -/
def pauseCount (segs : List Seg) : Nat :=
  segs.countP (fun s => isPauseType s.stype)

/-! ## Pause durations: `AudioGenerator._load_pause_durations`

The four settings are read in seconds and turned into silence segments of
`duration * 1000` milliseconds.  The settings defaults are
`heading_pause_duration = 5`, `ellipsis_pause_duration = 2`,
`line_break_pause_duration = 2`, `break_pause_duration = 5`. -/

structure PauseDurations where
  heading : Nat
  ellipsis : Nat
  lineBreak : Nat
  sectionBreak : Nat
deriving DecidableEq, Repr

/-- The default pause durations, in seconds, from `settings.get(..., default)`. -/
def defaultPauses : PauseDurations := ⟨5, 2, 2, 5⟩

/-- `self.heading_silence = AudioSegment.silent(duration=heading_pause_duration * 1000)`. -/
def headingSilenceMs (p : PauseDurations) : Nat := p.heading * 1000

/-- `self.ellipsis_silence`, in milliseconds. -/
def ellipsisSilenceMs (p : PauseDurations) : Nat := p.ellipsis * 1000

/-- `self.line_silence`, in milliseconds. -/
def lineSilenceMs (p : PauseDurations) : Nat := p.lineBreak * 1000

/-- `self.break_silence`, in milliseconds. -/
def breakSilenceMs (p : PauseDurations) : Nat := p.sectionBreak * 1000

/-- The configured pause length, in milliseconds, that corresponds to a pause
segment-type code (the PauseDurations snapshot entry the spec speaks of). -/
def pauseMsForType (p : PauseDurations) (t : Nat) : Nat :=
  if t = 2 then lineSilenceMs p
  else if t = 4 then ellipsisSilenceMs p
  else if t = 5 then breakSilenceMs p
  else 0

/-! ## The synthesis backend and `AudioGenerator._process_text_segment`

`get_tts_model()` / `tts.tts_to_file(...)` and the scratch filesystem are
external collaborators.  `Backend.available` models `get_tts_model()`
returning a usable model (vs. a falsy value); `Backend.synth text` models one
synthesis call: `some d` means the call returned, the output file exists and
`AudioSegment.from_file` measures `d` milliseconds; `none` means the call
raised or produced no file (all three Python failure paths return the same
`(segment_info, "", 0, False)` tuple). -/

structure Backend where
  available : Bool
  synth : String → Option Nat

/-- Result tuple `(segment_info, output_file, duration, success)` of
`_process_text_segment`. -/
structure SegResult where
  index : Nat
  stype : Nat
  file : String
  duration : Nat
  success : Bool
deriving DecidableEq, Repr

/-- The per-segment scratch file path
`os.path.join(temp_dir, f"segment_{segment_index}_{segment_type}.wav")`. -/
def segmentFilePath (tempDir : String) (i t : Nat) : String :=
  tempDir ++ "/segment_" ++ toString i ++ "_" ++ toString t ++ ".wav"

/-- `AudioGenerator._process_text_segment(text, temp_dir, language, voice_path,
segment_info)`.  The `language` and `voice_path` arguments only parametrise
the backend call and are folded into `Backend.synth`. -/
def processTextSegment (be : Backend) (tempDir : String) (text : String)
    (info : Nat × Nat) : SegResult :=
  -- `if not text.strip(): return segment_info, "", 0, True`
  if ¬ pyTruthy (pyStrip text) then ⟨info.1, info.2, "", 0, true⟩
  -- `if not tts: return segment_info, "", 0, False`
  else if ¬ be.available then ⟨info.1, info.2, "", 0, false⟩
  else
    match be.synth text with
    | some d => ⟨info.1, info.2, segmentFilePath tempDir info.1 info.2, d, true⟩
    | none => ⟨info.1, info.2, "", 0, false⟩

/-- The result the pool records for a prepared segment. -/
def processSeg (be : Backend) (tempDir : String) (s : Seg) : SegResult :=
  processTextSegment be tempDir s.text (s.index, s.stype)

/-! ## `AudioGenerator._setup_worker_threads` and `generate`'s call to it -/

/-- `thread_count = min(self.num_threads, num_segments)`; `generate` passes
`len(segments)` (the total segment count) for `num_segments`. -/
def threadCount (numThreads numSegments : Nat) : Nat :=
  min numThreads numSegments

/-! ## The assembler: `AudioGenerator._combine_audio_segments`

`fd : String → Nat` models `len(AudioSegment.from_file(path))`: the duration
in milliseconds of the audio stored at `path`.  The model returns the success
flag the Python function returns together with the duration in milliseconds
of the exported combined audio. -/

/-- Stable insertion of a result into a list sorted by `index`
(`segment_files.sort(key=lambda x: x[0][0])` — Python's sort is stable). -/
def insertByIndex (r : SegResult) : List SegResult → List SegResult
  | [] => [r]
  | x :: xs => if r.index ≤ x.index then r :: x :: xs else x :: insertByIndex r xs

/-- Stable sort of the results by `index`. -/
def sortByIndex : List SegResult → List SegResult
  | [] => []
  | r :: rs => insertByIndex r (sortByIndex rs)

/-- One iteration of the assembler's concatenation loop: the duration the
segment contributes to `combined`. -/
def combineStep (fd : String → Nat) (p : PauseDurations) (acc : Nat)
    (r : SegResult) : Nat :=
  if r.stype = 0 then acc + fd r.file                            -- normal text
  else if r.stype = 1 then acc + fd r.file + headingSilenceMs p  -- heading + pause
  else if r.stype = 2 then acc + lineSilenceMs p                 -- line break
  else if r.stype = 3 then acc + fd r.file                       -- ellipsis part
  else if r.stype = 4 then acc + ellipsisSilenceMs p             -- ellipsis pause
  else if r.stype = 5 then acc + breakSilenceMs p                -- [break] pause
  else acc

/-- The sorted-then-filtered list the assembler walks (`valid_segments`). -/
def validSegments (rs : List SegResult) : List SegResult :=
  (sortByIndex rs).filter (fun r => r.success)

/-- `AudioGenerator._combine_audio_segments(segment_files, output_path)`:
returns the Python function's boolean result together with the duration of
the exported file (`combined`), which is `0` and nothing is exported when no
valid segments exist. -/
def combineAudioSegments (fd : String → Nat) (p : PauseDurations)
    (rs : List SegResult) : Bool × Nat :=
  let valid := validSegments rs
  if valid.isEmpty then (false, 0)
  else (true, valid.foldl (combineStep fd p) 0)

/-! ## The monitor: `AudioGenerator._monitor_progress`

Sequential model of the collection loop: it pops results one at a time,
counts them, reports `int(processed / total * 100)` to the callback and — the
point the cancellation claim turns on — discards the callback's return value.
The loop exits exactly when `processed_segments >= total_segments`. -/

/-- One monitor iteration per available result; `cb` is the progress callback
(returning `False` is the caller's cancellation request).  Faithful to the
source, the returned value of `cb` is not consulted. -/
def monitorProgress (cb : Nat → String → Bool) (total : Nat) :
    List SegResult → Nat → List SegResult → List SegResult
  | [], _, collected => collected
  | r :: pending, processed, collected =>
    if processed < total then
      let processed1 := processed + 1
      -- `progress_callback(progress_percent, ...)` — return value dropped
      let _ := cb (processed1 * 100 / total)
        ("Processing segments: " ++ toString processed1 ++ " / " ++ toString total)
      monitorProgress cb total pending processed1 (collected ++ [r])
    else
      -- final drain: `while not result_queue.empty(): append(get())`
      monitorProgress cb total pending (processed + 1) (collected ++ [r])

/-- `_monitor_progress(result_queue, total_segments, progress_callback)`
applied to the stream of results the workers deliver. -/
def monitorRun (cb : Nat → String → Bool) (total : Nat)
    (results : List SegResult) : List SegResult :=
  monitorProgress cb total results 0 []

/-! ## `slugify` and `AudioGenerator._generate_output_filename`

`slugify` first runs
`unicodedata.normalize('NFKD', text).encode('ascii', 'ignore').decode('ascii')`.
That Unicode fold is Python-stdlib behaviour, modelled abstractly as a
function `fold` that (a) returns an ASCII string and (b) is the identity on
ASCII input — both true of NFKD-normalisation followed by ASCII
encode-with-ignore.  The remaining steps are translated from the source. -/

/-- The character class `[a-z0-9]` of `re.sub(r'[^a-z0-9]+', '-', text)`,
expressed on code points: `a`–`z` is 97–122 and `0`–`9` is 48–57. -/
def isLowerAlnum (c : Char) : Bool :=
  (97 ≤ c.toNat && c.toNat ≤ 122) || (48 ≤ c.toNat && c.toNat ≤ 57)

/-- ASCII alphanumeric characters (before lowercasing): `a`–`z`, `A`–`Z`
(65–90) and `0`–`9`. -/
def isAsciiAlnum (c : Char) : Bool :=
  (97 ≤ c.toNat && c.toNat ≤ 122) || (65 ≤ c.toNat && c.toNat ≤ 90) ||
    (48 ≤ c.toNat && c.toNat ≤ 57)

/-- A string of ASCII characters only. -/
def isAsciiStr (s : String) : Bool :=
  s.data.all (fun c => c.toNat ≤ 127)

/-- Worker for `collapseNonAlnum`: `inRun` records whether the previous
character belonged to a non-alphanumeric run already replaced by `'-'`. -/
def collapseGo : List Char → Bool → List Char
  | [], _ => []
  | c :: rest, inRun =>
    if isLowerAlnum c then c :: collapseGo rest false
    else if inRun then collapseGo rest true
    else '-' :: collapseGo rest true

/-- `re.sub(r'[^a-z0-9]+', '-', text)`: replace every maximal run of
characters outside `[a-z0-9]` by a single hyphen. -/
def collapseNonAlnum (l : List Char) : List Char :=
  collapseGo l false

/-- `text.lower()`.  Python lowercases per Unicode; on the ASCII strings this
step receives (the output of the ASCII encode) it agrees with
`Char.toLower`. -/
def pyLower (s : String) : String :=
  ⟨s.data.map Char.toLower⟩

/-- `text.strip('-')`. -/
def stripHyphens (s : String) : String :=
  ⟨stripChars (fun c => c = '-') s.data⟩

/-- `slugify(text)` from `app/utils/utils.py`, parametrised by the Unicode
fold `fold` (see above). -/
def slugify (fold : String → String) (text : String) : String :=
  let t1 := fold text
  let t2 := pyLower t1
  let t3 : String := ⟨collapseNonAlnum t2.data⟩
  let t4 := stripHyphens t3
  if ¬ pyTruthy t4 then "routine" else t4

/-- `AudioGenerator._generate_output_filename(routine_name)`; `uuid` models
the `uuid.uuid4()` draw used when no (truthy) name is given. -/
def generateOutputFilename (fold : String → String) (uuid : String) :
    Option String → String
  | some name => if pyTruthy name then slugify fold name ++ ".wav" else uuid ++ ".wav"
  | none => uuid ++ ".wav"

/-! ## Orchestration tail of `AudioGenerator.generate`

After the pool completes, `generate` combines the collected results; when
`_combine_audio_segments` returns `False` it calls
`_generate_fallback_audio`, which synthesizes the fixed diagnostic phrase
through the backend.  The model records the returned filename and whether the
fallback was synthesized. -/

/-- The fixed diagnostic phrase of `_generate_fallback_audio`. -/
def fallbackPhrase : String := "No valid text segments found"

/-- Outcome of `generate` from the collected results onward: the filename it
returns, paired with the text `_generate_fallback_audio` synthesized through
the backend (`none` when the combine step succeeded and no fallback ran). -/
def generateFromResults (fold : String → String) (fd : String → Nat)
    (p : PauseDurations) (uuid : String) (name : Option String)
    (results : List SegResult) : String × Option String :=
  let filename := generateOutputFilename fold uuid name
  let success := (combineAudioSegments fd p results).1
  (filename, if success then none else some fallbackPhrase)

/-! ## The worker pool: `_worker` threads over the shared queues

`_worker` runs `while not work_queue.empty(): get(); process; put result`.
The emptiness check and the `get()` are two separate steps, so the model
gives each worker a small control state: `idle` (at the loop condition),
`checking` (passed a non-empty check, about to `get()`), `claimed s`
(holding a segment, about to put its result), `blocked` (called `get()` on a
queue another worker emptied first — `Queue.get` blocks forever), and
`exited` (saw an empty queue at the loop condition).
`_process_text_segment` catches its own exceptions, `Queue.put` on an
unbounded queue and `task_done` do not raise, so the worker body's
`except` branch is unreachable and not modelled.  The scheduler is
nondeterministic: a step picks any worker (the `l₁ ++ w :: l₂`
decomposition) and advances it. -/

inductive WStatus where
  | idle
  | checking
  | claimed (s : Seg)
  | blocked
  | exited
deriving DecidableEq, Repr

/-- Shared pool state: the work queue, the results recorded so far (result
queue plus monitor collection — results are only ever appended), and the
worker control states. -/
structure PoolState where
  workQueue : List Seg
  results : List SegResult
  workers : List WStatus
deriving DecidableEq, Repr

/-- One scheduler step of the pool. -/
inductive PoolStep (be : Backend) (tempDir : String) : PoolState → PoolState → Prop where
  /-- `while not work_queue.empty():` sees a non-empty queue. -/
  | checkNonempty (q : List Seg) (rs : List SegResult) (l₁ l₂ : List WStatus)
      (hq : q ≠ []) :
      PoolStep be tempDir ⟨q, rs, l₁ ++ .idle :: l₂⟩ ⟨q, rs, l₁ ++ .checking :: l₂⟩
  /-- `while not work_queue.empty():` sees an empty queue; the worker exits. -/
  | checkEmpty (rs : List SegResult) (l₁ l₂ : List WStatus) :
      PoolStep be tempDir ⟨[], rs, l₁ ++ .idle :: l₂⟩ ⟨[], rs, l₁ ++ .exited :: l₂⟩
  /-- `work_queue.get()` wins the race and claims the head segment. -/
  | claim (s : Seg) (q : List Seg) (rs : List SegResult) (l₁ l₂ : List WStatus) :
      PoolStep be tempDir ⟨s :: q, rs, l₁ ++ .checking :: l₂⟩ ⟨q, rs, l₁ ++ .claimed s :: l₂⟩
  /-- `work_queue.get()` loses the race — the queue emptied between the check
  and the `get()` — and blocks forever. -/
  | block (rs : List SegResult) (l₁ l₂ : List WStatus) :
      PoolStep be tempDir ⟨[], rs, l₁ ++ .checking :: l₂⟩ ⟨[], rs, l₁ ++ .blocked :: l₂⟩
  /-- `result_queue.put(self._process_text_segment(...)); task_done()`. -/
  | finish (s : Seg) (q : List Seg) (rs : List SegResult) (l₁ l₂ : List WStatus) :
      PoolStep be tempDir ⟨q, rs, l₁ ++ .claimed s :: l₂⟩
        ⟨q, rs ++ [processSeg be tempDir s], l₁ ++ .idle :: l₂⟩

/-- Reachability in the pool's transition system. -/
def PoolReach (be : Backend) (tempDir : String) : PoolState → PoolState → Prop :=
  Relation.ReflTransGen (PoolStep be tempDir)

/-- The state `generate` sets up: all segments queued
(`for segment in segments: work_queue.put(segment)`), no results, and
`min(num_threads, len(segments))` idle worker threads. -/
def initPool (numThreads : Nat) (segs : List Seg) : PoolState :=
  ⟨segs, [], List.replicate (threadCount numThreads segs.length) .idle⟩

/-! ## Lemmas about the string primitives -/

theorem dropWhile_self_idem (p : Char → Bool) (l : List Char) :
    (l.dropWhile p).dropWhile p = l.dropWhile p := by
  cases h : l.dropWhile p with
  | nil => simp
  | cons a t =>
    have := List.head_dropWhile_not p l (by simp [h])
    rw [List.dropWhile_cons_of_neg]
    simpa [h] using this

theorem stripChars_prefix_dropWhile (p : Char → Bool) (l : List Char) :
    stripChars p l <+: l.dropWhile p := by
  unfold stripChars
  rw [← List.reverse_suffix]
  simpa using List.dropWhile_suffix (l := (l.dropWhile p).reverse) p

theorem stripChars_subset (p : Char → Bool) (l : List Char) :
    stripChars p l ⊆ l := by
  intro c hc
  exact List.dropWhile_subset p ((stripChars_prefix_dropWhile p l).subset hc)

theorem head?_dropWhile_not (p : Char → Bool) (l : List Char) (c : Char)
    (h : (l.dropWhile p).head? = some c) : p c = false := by
  induction l with
  | nil => simp at h
  | cons a t ih =>
    by_cases ha : p a = true
    · rw [List.dropWhile_cons_of_pos ha] at h
      exact ih h
    · rw [List.dropWhile_cons_of_neg ha] at h
      simp only [List.head?_cons, Option.some_inj] at h
      subst h
      simpa using ha

theorem stripChars_head?_not (p : Char → Bool) (l : List Char) (c : Char)
    (h : (stripChars p l).head? = some c) : p c = false := by
  obtain ⟨t, ht⟩ := stripChars_prefix_dropWhile p l
  apply head?_dropWhile_not p l c
  rw [← ht]
  cases hs : stripChars p l with
  | nil => rw [hs] at h; simp at h
  | cons a s2 =>
    rw [hs] at h
    simp only [List.head?_cons, Option.some_inj] at h
    simp [h]

theorem stripChars_getLast?_not (p : Char → Bool) (l : List Char) (c : Char)
    (h : (stripChars p l).getLast? = some c) : p c = false := by
  have hrw : (stripChars p l).getLast? = ((l.dropWhile p).reverse.dropWhile p).head? := by
    unfold stripChars
    rw [List.getLast?_reverse]
  rw [hrw] at h
  exact head?_dropWhile_not p (l.dropWhile p).reverse c h

theorem stripChars_idem (p : Char → Bool) (l : List Char) :
    stripChars p (stripChars p l) = stripChars p l := by
  -- first strip of an already-stripped list is the identity …
  have h1 : (stripChars p l).dropWhile p = stripChars p l := by
    cases ht : stripChars p l with
    | nil => simp
    | cons a t =>
      have hh : p a = false := stripChars_head?_not p l a (by rw [ht]; rfl)
      exact List.dropWhile_cons_of_neg (by simp [hh])
  -- … and so is the strip of its reversal (itself a `dropWhile` image).
  have hrr : (stripChars p l).reverse = ((l.dropWhile p).reverse).dropWhile p := by
    unfold stripChars
    rw [List.reverse_reverse]
  have h2 : (stripChars p l).reverse.dropWhile p = (stripChars p l).reverse := by
    rw [hrr]
    exact dropWhile_self_idem p (l.dropWhile p).reverse
  show ((((stripChars p l).dropWhile p).reverse).dropWhile p).reverse = _
  rw [h1, h2, List.reverse_reverse]

theorem pyStrip_idem (s : String) : pyStrip (pyStrip s) = pyStrip s := by
  simp only [pyStrip]
  exact congrArg String.mk (stripChars_idem pySpaceChar s.data)

theorem pyStrip_empty : pyStrip "" = "" := rfl

/-! ## Structural invariant of the segmenter state

`SegOk` is the per-segment well-formedness `_prepare_segments` establishes:
a segment is either a pause marker (type 2, 4 or 5) with empty text, or a
speech segment (type 0, 1 or 3) whose stripped text is non-empty.  `SegInv`
additionally states that the accumulated indices are exactly `0, 1, …`. -/

def SegOk (s : Seg) : Prop :=
  (isPauseType s.stype = true ∧ s.text = "") ∨
  (isSpeechType s.stype = true ∧ pyTruthy (pyStrip s.text) = true)

def SegInv (st : SegState) : Prop :=
  st.1.map (fun s => s.index) = List.range st.2 ∧ ∀ s ∈ st.1, SegOk s

theorem segInv_append (st : SegState) (txt : String) (t : Nat)
    (h : SegInv st) (hok : SegOk ⟨txt, st.2, t⟩) :
    SegInv (st.1 ++ [⟨txt, st.2, t⟩], st.2 + 1) := by
  constructor
  · simp only [List.map_append, List.map_cons, List.map_nil, h.1, List.range_succ]
  · intro s hs
    rcases List.mem_append.mp hs with hs | hs
    · exact h.2 s hs
    · rcases List.mem_singleton.mp hs with rfl
      exact hok

theorem segInv_procEllipsisParts (parts : List String) (st : SegState)
    (h : SegInv st) : SegInv (procEllipsisParts parts st) := by
  induction parts generalizing st with
  | nil => simpa [procEllipsisParts] using h
  | cons ep rest ih =>
    obtain ⟨segs, idx⟩ := st
    rw [procEllipsisParts]
    by_cases hep : pyTruthy (pyStrip ep) = true
    · rw [if_neg (by simp [hep])]
      apply ih
      have h1 : SegInv (segs ++ [⟨pyStrip ep, idx, 3⟩], idx + 1) := by
        refine segInv_append (segs, idx) _ _ h (Or.inr ⟨rfl, ?_⟩)
        rwa [pyStrip_idem]
      by_cases hr : rest.isEmpty
      · simpa [hr] using h1
      · simp only [hr, if_false, Bool.false_eq_true]
        exact segInv_append _ _ _ h1 (Or.inl ⟨rfl, rfl⟩)
    · rw [if_pos (by simpa using hep)]
      exact ih _ h

theorem segInv_procLine (line : String) (isLast : Bool) (st : SegState)
    (h : SegInv st) : SegInv (procLine line isLast st) := by
  rw [procLine]
  by_cases hl : pyTruthy (pyStrip line) = true
  · rw [if_neg (by simp [hl])]
    have h1 : SegInv (if pyStartsWith "###" (pyStrip line) = true then
        (st.1 ++ [⟨pyStrip line, st.2, 1⟩], st.2 + 1)
      else
        let eps := pySplit "..." line
        if 1 < eps.length then procEllipsisParts eps st
        else (st.1 ++ [⟨pyStrip line, st.2, 0⟩], st.2 + 1)) := by
      by_cases hh : pyStartsWith "###" (pyStrip line) = true
      · rw [if_pos hh]
        refine segInv_append st _ _ h (Or.inr ⟨rfl, ?_⟩)
        rwa [pyStrip_idem]
      · rw [if_neg hh]
        simp only
        by_cases he : 1 < (pySplit "..." line).length
        · rw [if_pos he]
          exact segInv_procEllipsisParts _ _ h
        · rw [if_neg he]
          refine segInv_append st _ _ h (Or.inr ⟨rfl, ?_⟩)
          rwa [pyStrip_idem]
    by_cases hlast : isLast
    · simpa [hlast] using h1
    · simp only [hlast, if_false, Bool.false_eq_true]
      exact segInv_append _ _ _ h1 (Or.inl ⟨rfl, rfl⟩)
  · rw [if_pos (by simpa using hl)]
    exact h

theorem segInv_procLines (lines : List String) (st : SegState)
    (h : SegInv st) : SegInv (procLines lines st) := by
  induction lines generalizing st with
  | nil => simpa [procLines] using h
  | cons l rest ih =>
    rw [procLines]
    exact ih _ (segInv_procLine l rest.isEmpty st h)

theorem segInv_procPart (part : String) (isLast : Bool) (st : SegState)
    (h : SegInv st) : SegInv (procPart part isLast st) := by
  rw [procPart]
  by_cases hp : pyTruthy (pyStrip part) = true
  · rw [if_neg (by simp [hp])]
    have h1 := segInv_procLines (pySplit "\n" part) st h
    by_cases hlast : isLast
    · simpa [hlast] using h1
    · simp only [hlast, if_false, Bool.false_eq_true]
      exact segInv_append _ _ _ h1 (Or.inl ⟨rfl, rfl⟩)
  · rw [if_pos (by simpa using hp)]
    exact h

theorem segInv_procParts (parts : List String) (st : SegState)
    (h : SegInv st) : SegInv (procParts parts st) := by
  induction parts generalizing st with
  | nil => simpa [procParts] using h
  | cons p rest ih =>
    rw [procParts]
    exact ih _ (segInv_procPart p rest.isEmpty st h)

/-- The final filter of `_prepare_segments` keeps every accumulated segment:
speech segments were inserted with non-empty stripped text, and pause markers
carry one of the filter's exempt type codes. -/
theorem prepareSegments_eq_accum (text : String) :
    prepareSegments text = (procParts (pySplit "[break]" text) ([], 0)).1 := by
  unfold prepareSegments
  apply List.filter_eq_self.mpr
  intro s hs
  have hinv : SegInv (procParts (pySplit "[break]" text) ([], 0)) :=
    segInv_procParts _ _ ⟨by simp, by simp⟩
  rcases hinv.2 s hs with ⟨ht, _⟩ | ⟨_, ht⟩ <;> simp [ht]

theorem prepareSegments_segOk (text : String) :
    ∀ s ∈ prepareSegments text, SegOk s := by
  intro s hs
  rw [prepareSegments_eq_accum] at hs
  exact (segInv_procParts (pySplit "[break]" text) ([], 0) ⟨by simp, by simp⟩).2 s hs

/-- Speech and pause segment-type codes are disjoint. -/
theorem speech_pause_disjoint (t : Nat) (h1 : isSpeechType t = true)
    (h2 : isPauseType t = true) : False := by
  simp only [isSpeechType, Bool.or_eq_true, decide_eq_true_eq] at h1
  simp only [isPauseType, Bool.or_eq_true, decide_eq_true_eq] at h2
  omega

/-- `_process_text_segment` on empty text (the pause markers). -/
theorem processTextSegment_empty (be : Backend) (dir : String) (info : Nat × Nat) :
    processTextSegment be dir "" info = ⟨info.1, info.2, "", 0, true⟩ := by
  unfold processTextSegment
  rw [if_pos (by decide)]

/-! ## Claim C4: sequence indices are exactly `0 .. n-1` -/

/-- C4 (confirmed): for every input text, the list returned by
`_prepare_segments` (after its final filter) has `sequence_index` values that
are exactly `0 .. n-1` in strictly increasing order, with no gaps and no
repeats. -/
theorem c4_indices_exact_range (text : String) :
    (prepareSegments text).map (fun s => s.index) =
      List.range (prepareSegments text).length := by
  rw [prepareSegments_eq_accum]
  obtain ⟨h1, -⟩ := segInv_procParts (pySplit "[break]" text) ([], 0) ⟨by simp, by simp⟩
  have hlen : (procParts (pySplit "[break]" text) ([], 0)).1.length =
      (procParts (pySplit "[break]" text) ([], 0)).2 := by
    have h2 := congrArg List.length h1
    simpa using h2
  rw [h1, hlen]

/-! ## Claim C1: what the pool records for a pause segment -/

/-- C1 (counterexample): the line-break pause segment of `"A\nB"` gets a
SegmentResult with `duration = 0`, not the configured line-break pause
duration (2 s = 2000 ms under the default settings): the configured pause is
injected later by the assembler, not stored in the SegmentResult. -/
theorem c1_counterexample :
    (⟨"", 1, 2⟩ : Seg) ∈ prepareSegments "A\nB" ∧
    isPauseType (⟨"", 1, 2⟩ : Seg).stype = true ∧
    pauseMsForType defaultPauses 2 = 2000 ∧
    (processSeg ⟨true, fun _ => some 1000⟩ "tmp" ⟨"", 1, 2⟩).duration = 0 ∧
    (processSeg ⟨true, fun _ => some 1000⟩ "tmp" ⟨"", 1, 2⟩).duration ≠
      pauseMsForType defaultPauses 2 := by
  decide

/-- C1 (amended): every pause-kind segment produced by the segmenter yields a
SegmentResult with `success = true`, no audio handle and `duration_ms = 0`
(not the configured pause duration — that is applied by the assembler). -/
theorem c1_pause_results (be : Backend) (tempDir text : String) (s : Seg)
    (hs : s ∈ prepareSegments text) (hp : isPauseType s.stype = true) :
    processSeg be tempDir s = ⟨s.index, s.stype, "", 0, true⟩ := by
  rcases prepareSegments_segOk text s hs with ⟨-, htxt⟩ | ⟨hsp, -⟩
  · rw [processSeg, htxt]
    exact processTextSegment_empty be tempDir (s.index, s.stype)
  · exact absurd hp (fun h2 => speech_pause_disjoint s.stype hsp h2)

theorem c1_pause_results_witness :
    processSeg ⟨true, fun _ => some 777⟩ "d" ⟨"", 1, 2⟩ = ⟨1, 2, "", 0, true⟩ :=
  c1_pause_results ⟨true, fun _ => some 777⟩ "d" "A\nB" ⟨"", 1, 2⟩ (by decide) (by decide)

/-! ## Claim C2: heading segments keep the `###` marker -/

/-- C2 (counterexample): segmenting `"### Heading\nBody"` does produce a
heading-flagged Speech segment, a line-break pause and `Speech("Body")`, but
the heading segment's payload is the full trimmed line `"### Heading"` — the
`###` marker is not removed, so the payload is not `"Heading"`. -/
theorem c2_counterexample :
    prepareSegments "### Heading\nBody" =
      [⟨"### Heading", 0, 1⟩, ⟨"", 1, 2⟩, ⟨"Body", 2, 0⟩] ∧
    (prepareSegments "### Heading\nBody").head?.map (fun s => s.text) ≠
      some "Heading" := by
  decide

/-- C2 (amended): for every line whose trimmed form starts with `###`, the
segmenter emits exactly one heading-flagged (type 1) Speech segment whose
payload is the full trimmed line including the `###` marker, followed by a
line-break marker iff the line is not the last of its part; in particular
`"### Heading\nBody"` yields heading-flagged Speech("### Heading"), a
LineBreakPause, and Speech("Body"). -/
theorem c2_heading_keeps_marker (line : String) (isLast : Bool) (st : SegState)
    (h1 : pyTruthy (pyStrip line) = true)
    (h2 : pyStartsWith "###" (pyStrip line) = true) :
    procLine line isLast st =
      (st.1 ++ [⟨pyStrip line, st.2, 1⟩] ++
        (if isLast then [] else [⟨"", st.2 + 1, 2⟩]),
       if isLast then st.2 + 1 else st.2 + 2) ∧
    prepareSegments "### Heading\nBody" =
      [⟨"### Heading", 0, 1⟩, ⟨"", 1, 2⟩, ⟨"Body", 2, 0⟩] := by
  constructor
  · rw [procLine, if_neg (by simp [h1])]
    simp only [if_pos h2]
    cases isLast <;> simp
  · decide

theorem c2_heading_keeps_marker_witness :
    procLine "### X" true ([], 0) = ([⟨"### X", 0, 1⟩], 1) := by
  have h := (c2_heading_keeps_marker "### X" true ([], 0) (by decide) (by decide)).1
  rw [h]
  decide

/-! ## Claim C6: `[break]` boundaries and empty parts -/

/-- C6 (counterexample): `"A[break]"` — a text whose trailing `[break]` part
is empty — does end with a SectionBreakPause (type 5) segment after `A`'s
segments, contrary to the claim that no trailing pause is emitted. -/
theorem c6_counterexample :
    prepareSegments "A[break]" = [⟨"A", 0, 0⟩, ⟨"", 1, 5⟩] ∧
    (prepareSegments "A[break]").getLast?.map (fun s => s.stype) = some 5 := by
  decide

/-- C6 (amended): a part that is empty after trimming contributes no segments
of its own and no pause of its own, and `"[break]"` alone yields zero
segments; but the SectionBreakPause after a non-empty part is emitted
whenever further parts follow, even if they are all empty, so `"A[break]"`
ends with a trailing SectionBreakPause. -/
theorem c6_empty_parts_skipped (part : String) (isLast : Bool) (st : SegState)
    (h : pyTruthy (pyStrip part) = false) :
    procPart part isLast st = st ∧
    prepareSegments "[break]" = ([] : List Seg) ∧
    prepareSegments "A[break]" = [⟨"A", 0, 0⟩, ⟨"", 1, 5⟩] := by
  refine ⟨?_, by decide, by decide⟩
  rw [procPart, if_pos (by simp [h])]

theorem c6_empty_parts_skipped_witness :
    procPart " " true ([], 0) = (([], 0) : SegState) ∧
    prepareSegments "[break]" = ([] : List Seg) ∧
    prepareSegments "A[break]" = [⟨"A", 0, 0⟩, ⟨"", 1, 5⟩] :=
  c6_empty_parts_skipped " " true ([], 0) (by decide)

/-! ## Pool invariant: segments are conserved through the run -/

/-- The segments currently claimed (held between `get()` and
`result_queue.put(...)`) by some worker. -/
def claimedSegs : List WStatus → List Seg
  | [] => []
  | .claimed s :: ws => s :: claimedSegs ws
  | .idle :: ws => claimedSegs ws
  | .checking :: ws => claimedSegs ws
  | .blocked :: ws => claimedSegs ws
  | .exited :: ws => claimedSegs ws

theorem claimedSegs_append (l₁ l₂ : List WStatus) :
    claimedSegs (l₁ ++ l₂) = claimedSegs l₁ ++ claimedSegs l₂ := by
  induction l₁ with
  | nil => simp [claimedSegs]
  | cons w ws ih => cases w <;> simp [claimedSegs, ih]

theorem claimedSegs_replicate_idle (n : Nat) :
    claimedSegs (List.replicate n .idle) = [] := by
  induction n with
  | zero => rfl
  | succ n ih => simpa [List.replicate_succ, claimedSegs] using ih

/-- The multiset of results the run is bound to deliver: results of the
segments still queued, of the segments claimed by a worker, and the results
already recorded. -/
def poolMeasure (be : Backend) (dir : String) (st : PoolState) : Multiset SegResult :=
  (st.workQueue.map (processSeg be dir) : Multiset SegResult) +
  ((claimedSegs st.workers).map (processSeg be dir) : Multiset SegResult) +
  (st.results : Multiset SegResult)

theorem poolStep_measure (be : Backend) (dir : String) {st st' : PoolState}
    (h : PoolStep be dir st st') :
    poolMeasure be dir st' = poolMeasure be dir st := by
  cases h with
  | checkNonempty q rs l₁ l₂ hq =>
      simp [poolMeasure, claimedSegs_append, claimedSegs]
  | checkEmpty rs l₁ l₂ =>
      simp [poolMeasure, claimedSegs_append, claimedSegs]
  | block rs l₁ l₂ =>
      simp [poolMeasure, claimedSegs_append, claimedSegs]
  | claim s q rs l₁ l₂ =>
      simp only [poolMeasure, claimedSegs_append, claimedSegs, List.map_append,
        List.map_cons, ← Multiset.coe_add, ← Multiset.cons_coe, ← Multiset.singleton_add]
      abel
  | finish s q rs l₁ l₂ =>
      simp only [poolMeasure, claimedSegs_append, claimedSegs, List.map_append,
        List.map_cons, ← Multiset.coe_add, ← Multiset.cons_coe, ← Multiset.singleton_add]
      abel

theorem poolReach_measure (be : Backend) (dir : String) {st st' : PoolState}
    (h : PoolReach be dir st st') :
    poolMeasure be dir st' = poolMeasure be dir st := by
  induction h with
  | refl => rfl
  | tail hab hbc ih => rw [poolStep_measure be dir hbc, ih]

theorem poolReach_init_measure (be : Backend) (dir : String) (n : Nat)
    (segs : List Seg) (st : PoolState)
    (h : PoolReach be dir (initPool n segs) st) :
    poolMeasure be dir st = (segs.map (processSeg be dir) : Multiset SegResult) := by
  rw [poolReach_measure be dir h]
  simp [poolMeasure, initPool, claimedSegs_replicate_idle]

theorem poolReach_results_le (be : Backend) (dir : String) (n : Nat)
    (segs : List Seg) (st : PoolState)
    (h : PoolReach be dir (initPool n segs) st) :
    st.results.length ≤ segs.length := by
  have hm := congrArg Multiset.card (poolReach_init_measure be dir n segs st h)
  simp only [poolMeasure, Multiset.card_add, Multiset.coe_card,
    List.length_map] at hm
  omega

/-! ## Claim C5: one SegmentResult per submitted segment -/

/-- C5 (confirmed): in every run (any schedule of the worker pool started by
`generate`), the collection loop's termination condition — as many results as
submitted segments — holds exactly when the recorded results are, up to
completion order, one `_process_text_segment` result per queued segment: no
segment is dropped and none is counted twice. -/
theorem c5_exactly_one_result (be : Backend) (dir : String) (segs : List Seg)
    (n : Nat) (st : PoolState)
    (h : PoolReach be dir (initPool n segs) st) :
    st.results.length = segs.length ↔
      st.results.Perm (segs.map (processSeg be dir)) := by
  have hm := poolReach_init_measure be dir n segs st h
  constructor
  · intro hlen
    have hcard := congrArg Multiset.card hm
    simp only [poolMeasure, Multiset.card_add, Multiset.coe_card,
      List.length_map] at hcard
    have hq : st.workQueue = [] := by
      have h0 : st.workQueue.length = 0 := by omega
      exact List.length_eq_zero.mp h0
    have hc : claimedSegs st.workers = [] := by
      have h0 : (claimedSegs st.workers).length = 0 := by omega
      exact List.length_eq_zero.mp h0
    rw [poolMeasure, hq, hc] at hm
    simp only [List.map_nil, Multiset.coe_nil, zero_add] at hm
    exact Multiset.coe_eq_coe.mp hm
  · intro hperm
    simpa using hperm.length_eq

def cwSeg : Seg := ⟨"Hi", 0, 0⟩

def cwBe : Backend := ⟨true, fun _ => some 500⟩

def cwFinal : PoolState := ⟨[], [processSeg cwBe "tmp" cwSeg], [.idle]⟩

theorem c5_exactly_one_result_witness :
    ([processSeg cwBe "tmp" cwSeg] : List SegResult).Perm
      ((prepareSegments "Hi").map (processSeg cwBe "tmp")) := by
  have hsegs : prepareSegments "Hi" = [cwSeg] := by decide
  have hreach : PoolReach cwBe "tmp" (initPool 1 (prepareSegments "Hi")) cwFinal := by
    rw [hsegs]
    exact Relation.ReflTransGen.tail
      (Relation.ReflTransGen.tail
        (Relation.ReflTransGen.tail Relation.ReflTransGen.refl
          (PoolStep.checkNonempty [cwSeg] [] [] [] (by simp)))
        (PoolStep.claim cwSeg [] [] [] []))
      (PoolStep.finish cwSeg [] [] [] [])
  exact (c5_exactly_one_result cwBe "tmp" (prepareSegments "Hi") 1 cwFinal hreach).mp
    (by rw [hsegs]; rfl)

/-! ## Claim C3: worker thread budget -/

/-- C3 (counterexample): for `"A\nB"` (2 Speech segments, 1 pause segment)
and a thread budget of 3, `_setup_worker_threads` starts
`min(3, len(segments)) = 3` threads, which exceeds the claimed bound
`min(T, N) = 2` on the Speech-segment count. -/
theorem c3_counterexample :
    threadCount 3 (prepareSegments "A\nB").length = 3 ∧
    speechCount (prepareSegments "A\nB") = 2 ∧
    pauseCount (prepareSegments "A\nB") = 1 ∧
    ¬ (threadCount 3 (prepareSegments "A\nB").length ≤
        min 3 (speechCount (prepareSegments "A\nB"))) := by
  decide

theorem speech_add_pause_eq_length (text : String) :
    speechCount (prepareSegments text) + pauseCount (prepareSegments text) =
      (prepareSegments text).length := by
  unfold speechCount pauseCount
  rw [List.length_eq_countP_add_countP (fun s => isSpeechType s.stype)]
  congr 1
  apply List.countP_congr
  intro s hs
  rcases prepareSegments_segOk text s hs with ⟨hp, -⟩ | ⟨hsp, -⟩
  · have hns : isSpeechType s.stype = false := by
      rcases hb : isSpeechType s.stype with _ | _
      · rfl
      · exact absurd hp (fun h2 => speech_pause_disjoint s.stype hb h2)
    simp [hp, hns]
  · have hnp : isPauseType s.stype = false := by
      rcases hb : isPauseType s.stype with _ | _
      · rfl
      · exact absurd hsp (fun h2 => speech_pause_disjoint s.stype h2 hb)
    simp [hsp, hnp]

/-- C3 (amended): the pool starts `min(T, N + P)` worker threads — the bound
is the total segment count `len(segments)` passed by `generate`, not the
Speech count — and a reachable pool state never holds more than `N + P`
results (with exactly `N + P` at completion). -/
theorem c3_thread_budget (T : Nat) (text : String) (be : Backend) (dir : String)
    (st : PoolState)
    (h : PoolReach be dir (initPool T (prepareSegments text)) st) :
    threadCount T (prepareSegments text).length =
      min T (speechCount (prepareSegments text) + pauseCount (prepareSegments text)) ∧
    st.results.length ≤
      speechCount (prepareSegments text) + pauseCount (prepareSegments text) := by
  rw [speech_add_pause_eq_length]
  exact ⟨rfl, poolReach_results_le be dir T (prepareSegments text) st h⟩

theorem c3_thread_budget_witness :
    threadCount 3 (prepareSegments "A\nB").length =
      min 3 (speechCount (prepareSegments "A\nB") + pauseCount (prepareSegments "A\nB")) ∧
    (initPool 3 (prepareSegments "A\nB")).results.length ≤
      speechCount (prepareSegments "A\nB") + pauseCount (prepareSegments "A\nB") :=
  c3_thread_budget 3 "A\nB" ⟨true, fun _ => some 1⟩ "t"
    (initPool 3 (prepareSegments "A\nB")) Relation.ReflTransGen.refl

/-! ## Claim C7: exported duration of the assembler -/

theorem foldl_combineStep (fd : String → Nat) (p : PauseDurations)
    (l : List SegResult) (acc : Nat)
    (h1 : ∀ r ∈ l, r.stype ≤ 5)
    (h2 : ∀ r ∈ l, isSpeechType r.stype = true → fd r.file = r.duration)
    (h3 : ∀ r ∈ l, isPauseType r.stype = true → r.duration = 0) :
    l.foldl (combineStep fd p) acc =
      acc + (l.map (fun r => r.duration)).sum
        + (l.countP (fun r => r.stype = 1)) * headingSilenceMs p
        + (l.countP (fun r => r.stype = 2)) * lineSilenceMs p
        + (l.countP (fun r => r.stype = 4)) * ellipsisSilenceMs p
        + (l.countP (fun r => r.stype = 5)) * breakSilenceMs p := by
  induction l generalizing acc with
  | nil => simp
  | cons r t ih =>
    have hr1 := h1 r (List.mem_cons_self r t)
    rw [List.foldl_cons,
      ih (combineStep fd p acc r) (fun x hx => h1 x (List.mem_cons_of_mem r hx))
        (fun x hx => h2 x (List.mem_cons_of_mem r hx))
        (fun x hx => h3 x (List.mem_cons_of_mem r hx))]
    have hcases : r.stype = 0 ∨ r.stype = 1 ∨ r.stype = 2 ∨ r.stype = 3 ∨
        r.stype = 4 ∨ r.stype = 5 := by omega
    rcases hcases with h | h | h | h | h | h
    · have hfd : fd r.file = r.duration :=
        h2 r (List.mem_cons_self r t) (by rw [h]; rfl)

      simp [combineStep, h, List.countP_cons, hfd]
      ring
    · have hfd : fd r.file = r.duration :=
        h2 r (List.mem_cons_self r t) (by rw [h]; rfl)
      simp [combineStep, h, List.countP_cons, hfd]
      ring
    · have hd0 : r.duration = 0 :=
        h3 r (List.mem_cons_self r t) (by rw [h]; rfl)
      simp [combineStep, h, List.countP_cons, hd0]
      ring
    · have hfd : fd r.file = r.duration :=
        h2 r (List.mem_cons_self r t) (by rw [h]; rfl)
      simp [combineStep, h, List.countP_cons, hfd]
      ring
    · have hd0 : r.duration = 0 :=
        h3 r (List.mem_cons_self r t) (by rw [h]; rfl)
      simp [combineStep, h, List.countP_cons, hd0]
      ring
    · have hd0 : r.duration = 0 :=
        h3 r (List.mem_cons_self r t) (by rw [h]; rfl)
      simp [combineStep, h, List.countP_cons, hd0]
      ring

/-- C7 (counterexample): a successful run over one speech result (1000 ms)
and one line-break pause result exports 3000 ms of audio under the default
pause settings, while the sum of `duration_ms` over the retained results is
only 1000 ms — the assembler injects the configured silences on top of the
stored durations, which are 0 for pause results. -/
theorem c7_counterexample :
    (combineAudioSegments (fun _ => 1000) defaultPauses
       [⟨0, 0, "f", 1000, true⟩, ⟨1, 2, "", 0, true⟩]).1 = true ∧
    (combineAudioSegments (fun _ => 1000) defaultPauses
       [⟨0, 0, "f", 1000, true⟩, ⟨1, 2, "", 0, true⟩]).2 = 3000 ∧
    ((validSegments [⟨0, 0, "f", 1000, true⟩, ⟨1, 2, "", 0, true⟩]).map
        (fun r => r.duration)).sum = 1000 ∧
    (3000 : Nat) ≠ 1000 := by
  decide

/-- C7 (amended): for results whose stored speech durations match their audio
files and whose pause durations are 0 (as `_process_text_segment` produces),
the duration of the exported combined file equals the sum of `duration_ms`
over the retained (success, sorted) results **plus** the configured silences:
one heading silence per retained heading and one configured pause length per
retained pause result. -/
theorem c7_duration_sum (fd : String → Nat) (p : PauseDurations)
    (rs : List SegResult)
    (h1 : ∀ r ∈ validSegments rs, r.stype ≤ 5)
    (h2 : ∀ r ∈ validSegments rs, isSpeechType r.stype = true → fd r.file = r.duration)
    (h3 : ∀ r ∈ validSegments rs, isPauseType r.stype = true → r.duration = 0) :
    (combineAudioSegments fd p rs).2 =
      ((validSegments rs).map (fun r => r.duration)).sum
        + ((validSegments rs).countP (fun r => r.stype = 1)) * headingSilenceMs p
        + ((validSegments rs).countP (fun r => r.stype = 2)) * lineSilenceMs p
        + ((validSegments rs).countP (fun r => r.stype = 4)) * ellipsisSilenceMs p
        + ((validSegments rs).countP (fun r => r.stype = 5)) * breakSilenceMs p := by
  unfold combineAudioSegments
  by_cases hv : (validSegments rs).isEmpty
  · rw [List.isEmpty_iff] at hv
    simp [hv]
  · simp only [hv, if_neg, Bool.false_eq_true, if_false]
    simpa using foldl_combineStep fd p (validSegments rs) 0 h1 h2 h3

theorem c7_duration_sum_witness :
    (combineAudioSegments (fun _ => 1000) defaultPauses
       [⟨0, 0, "f", 1000, true⟩, ⟨1, 2, "", 0, true⟩]).2 =
      ((validSegments [⟨0, 0, "f", 1000, true⟩, ⟨1, 2, "", 0, true⟩]).map
          (fun r => r.duration)).sum
        + ((validSegments [⟨0, 0, "f", 1000, true⟩, ⟨1, 2, "", 0, true⟩]).countP
            (fun r => r.stype = 1)) * headingSilenceMs defaultPauses
        + ((validSegments [⟨0, 0, "f", 1000, true⟩, ⟨1, 2, "", 0, true⟩]).countP
            (fun r => r.stype = 2)) * lineSilenceMs defaultPauses
        + ((validSegments [⟨0, 0, "f", 1000, true⟩, ⟨1, 2, "", 0, true⟩]).countP
            (fun r => r.stype = 4)) * ellipsisSilenceMs defaultPauses
        + ((validSegments [⟨0, 0, "f", 1000, true⟩, ⟨1, 2, "", 0, true⟩]).countP
            (fun r => r.stype = 5)) * breakSilenceMs defaultPauses :=
  c7_duration_sum (fun _ => 1000) defaultPauses
    [⟨0, 0, "f", 1000, true⟩, ⟨1, 2, "", 0, true⟩]
    (by decide) (by decide) (by decide)

/-! ## Claim C8: the zero-valid-segments fallback -/

/-- The results the pool collects for `"A\nB"` when every synthesis call
fails (`Backend.synth` always `none`): both Speech results fail, the
line-break pause result succeeds. -/
def c8results : List SegResult :=
  (prepareSegments "A\nB").map (processSeg ⟨true, fun _ => none⟩ "tmp")

/-- C8 (counterexample): with `"A\nB"` and a backend whose every synthesis
call fails, every Speech result has `success = false`, yet `generate` does
**not** synthesize the diagnostic phrase: the successful pause result keeps
`_combine_audio_segments` truthy, so the pause-only audio is exported
instead of the claimed fallback. -/
theorem c8_counterexample :
    (∀ r ∈ c8results, isSpeechType r.stype = true → r.success = false) ∧
    ((⟨1, 2, "", 0, true⟩ : SegResult) ∈ c8results) ∧
    (generateFromResults id (fun _ => 1000) defaultPauses "u" (some "My Routine")
        c8results).2 = none ∧
    fallbackPhrase = "No valid text segments found" := by
  decide

/-- C8 (amended): `generate` always returns the computed output filename, and
`_generate_fallback_audio` synthesizes the fixed diagnostic phrase
`"No valid text segments found"` exactly when **no** SegmentResult of any
kind survives the success filter — all-Speech-failure alone does not trigger
it when a pause result (always successful) is present. -/
theorem c8_fallback_iff_no_valid (fold : String → String) (fd : String → Nat)
    (p : PauseDurations) (uuid : String) (name : Option String)
    (results : List SegResult) :
    (generateFromResults fold fd p uuid name results).1 =
      generateOutputFilename fold uuid name ∧
    ((generateFromResults fold fd p uuid name results).2 = some fallbackPhrase ↔
      validSegments results = []) := by
  refine ⟨rfl, ?_⟩
  unfold generateFromResults combineAudioSegments
  by_cases hv : (validSegments results).isEmpty
  · rw [List.isEmpty_iff] at hv
    simp [hv]
  · have hv2 : ¬ validSegments results = [] := by
      rw [← List.isEmpty_iff]
      exact hv
    simp [hv, hv2]

/-! ## Claim C9: the cancellation signal is computed but never consumed -/

/-- The results of a fully successful run over `"A\nB"`. -/
def c9results : List SegResult :=
  (prepareSegments "A\nB").map (processSeg ⟨true, fun _ => some 1000⟩ "tmp")

/-- C9 (code_bug): `base_task_manager`'s progress callback returns
`not self.cancel_requested` precisely so the generator can stop, but
`_monitor_progress` discards the callback's return value: the collection is
independent of the callback (first conjunct), and a run whose callback
requests cancellation from the start (`False` on every call) still processes
all three segments of `"A\nB"` and returns the ordinary slug filename with
no fallback and no distinct cancellation outcome (remaining conjuncts). -/
theorem c9_cancellation_ignored :
    (∀ (cb cb' : Nat → String → Bool) (total : Nat) (pending : List SegResult)
        (processed : Nat) (collected : List SegResult),
        monitorProgress cb total pending processed collected =
          monitorProgress cb' total pending processed collected) ∧
    monitorRun (fun _ _ => false) 3 c9results = c9results ∧
    c9results.length = (prepareSegments "A\nB").length ∧
    (generateFromResults id (fun _ => 1000) defaultPauses "u" (some "Test")
        (monitorRun (fun _ _ => false) 3 c9results)) = ("test.wav", none) := by
  refine ⟨?_, by decide, by decide, by decide⟩
  intro cb cb' total pending
  induction pending with
  | nil => intro processed collected; rfl
  | cons r t ih =>
    intro processed collected
    simp only [monitorProgress]
    by_cases h : processed < total
    · rw [if_pos h, if_pos h]
      exact ih _ _
    · rw [if_neg h, if_neg h]
      exact ih _ _

/-! ## Claim C10: `slugify` and the output filename -/

theorem toLower_not_alnum (c : Char) (h : isAsciiAlnum c = false) :
    isLowerAlnum (Char.toLower c) = false := by
  have h' : ((97 ≤ c.toNat → 122 < c.toNat) ∧ (65 ≤ c.toNat → 90 < c.toNat)) ∧
      (48 ≤ c.toNat → 57 < c.toNat) := by
    simpa [isAsciiAlnum, Decidable.not_and_iff_or_not, not_or] using h
  show isLowerAlnum (if c.toNat ≥ 65 ∧ c.toNat ≤ 90 then Char.ofNat (c.toNat + 32)
    else c) = false
  rw [if_neg (by omega)]
  simp only [isLowerAlnum]
  simp only [Bool.or_eq_false_iff, Bool.and_eq_false_iff, decide_eq_false_iff_not]
  omega

theorem collapseGo_all_nonalnum (l : List Char)
    (h : ∀ c ∈ l, isLowerAlnum c = false) :
    collapseGo l true = [] ∧
    collapseGo l false = if l = [] then [] else ['-'] := by
  induction l with
  | nil => exact ⟨rfl, rfl⟩
  | cons c t ih =>
    have hc := h c (List.mem_cons_self c t)
    have iht := ih (fun x hx => h x (List.mem_cons_of_mem c hx))
    constructor
    · simp only [collapseGo, hc, Bool.false_eq_true, if_false, if_true]
      exact iht.1
    · simp only [collapseGo, hc, Bool.false_eq_true, if_false,
        Bool.false_eq_true]
      simp only [List.cons_ne_nil, if_false]
      rw [iht.1]
  -- the `inRun = false` arm prepends a single hyphen before an all-pause tail

theorem collapseGo_chars (l : List Char) (b : Bool) :
    ∀ c ∈ collapseGo l b, isLowerAlnum c = true ∨ c = '-' := by
  induction l generalizing b with
  | nil => intro c hc; simp [collapseGo] at hc
  | cons a t ih =>
    intro c hc
    by_cases ha : isLowerAlnum a = true
    · simp only [collapseGo, ha, if_true] at hc
      rcases List.mem_cons.mp hc with rfl | hc
      · exact Or.inl ha
      · exact ih false c hc
    · simp only [collapseGo, ha, if_false, Bool.false_eq_true] at hc
      cases b with
      | true => exact ih true c hc
      | false =>
        rcases List.mem_cons.mp hc with rfl | hc
        · exact Or.inr rfl
        · exact ih true c hc

theorem pyTruthy_ne_empty (t : String) (h : pyTruthy t = true) : t ≠ "" := by
  intro he
  rw [he] at h
  exact absurd h (by decide)

/-- `slugify` with its let-chain unfolded. -/
theorem slugify_eq (fold : String → String) (text : String) :
    slugify fold text =
      (if ¬ pyTruthy (stripHyphens ⟨collapseNonAlnum (pyLower (fold text)).data⟩)
       then "routine"
       else stripHyphens ⟨collapseNonAlnum (pyLower (fold text)).data⟩) := rfl

/-- One code point of the real Python fold
`unicodedata.normalize('NFKD', ·).encode('ascii', 'ignore')`, evaluated at
the concrete characters the counterexample needs: an ASCII character is
fixed (ASCII code points are NFKD-invariant and survive the ASCII encode);
`'é'` (U+00E9) NFKD-decomposes to `'e'` (U+0065) followed by the combining
acute U+0301, and `encode('ascii', 'ignore')` drops the combining accent, so
the fold of `"é"` is `"e"`; any other non-ASCII character is modelled as
dropped (not exercised by any theorem here). -/
def foldChar (c : Char) : List Char :=
  if c.toNat ≤ 127 then [c]
  else if c = 'é' then ['e']
  else []

/-- Concrete instance of the `NFKD`-normalise-then-ASCII-encode step of
`slugify`, faithful to the Python stdlib behaviour on ASCII strings and on
`"é"` (see `foldChar`). -/
def nfkdAsciiFold (s : String) : String :=
  ⟨s.data.flatMap foldChar⟩

/-- The concrete fold is the identity on ASCII strings — the same property
the amended theorem assumes of the abstract `fold`. -/
theorem nfkdAsciiFold_ascii_id (s : String) (h : isAsciiStr s = true) :
    nfkdAsciiFold s = s := by
  obtain ⟨data⟩ := s
  simp only [isAsciiStr, List.all_eq_true, decide_eq_true_eq] at h
  show (⟨data.flatMap foldChar⟩ : String) = ⟨data⟩
  congr 1
  induction data with
  | nil => rfl
  | cons c t ih =>
    have hc : foldChar c = [c] := by
      rw [foldChar, if_pos (h c (List.mem_cons_self c t))]
    rw [List.flatMap_cons, hc, ih (fun x hx => h x (List.mem_cons_of_mem c hx))]
    rfl

/-- C10 (counterexample): the routine name `"é"` contains no ASCII
alphanumeric character, yet under the real Unicode fold (`NFKD` turns `'é'`
into `'e'` plus a combining accent, which the ASCII encode drops) `slugify`
returns `"e"`, not the default slug `"routine"`, and the output filename is
`"e.wav"`. -/
theorem c10_counterexample :
    ("é" : String).data.all (fun c => !isAsciiAlnum c) = true ∧
    pyTruthy "é" = true ∧
    nfkdAsciiFold "é" = "e" ∧
    slugify nfkdAsciiFold "é" = "e" ∧
    generateOutputFilename nfkdAsciiFold "u" (some "é") = "e.wav" ∧
    ("e" : String) ≠ "routine" := by
  decide

/-- C10 (amended): for every truthy routine name the output filename is
`slugify(name) + ".wav"`; `slugify` always returns a non-empty string of
lowercase alphanumerics and hyphens with no leading or trailing hyphen; every
**ASCII** name without an alphanumeric character collapses to the default
slug `"routine"` (a non-ASCII name without ASCII alphanumerics can instead
fold to letters, as `"é"` does); and two distinct names can share one output
filename.  The `NFKD`-normalise-then-ASCII-encode step is abstracted as
`fold`, constrained by its true property of being the identity on ASCII
input. -/
theorem c10_slug_filename (fold : String → String)
    (hfold : ∀ s, isAsciiStr s = true → fold s = s) :
    (∀ uuid name, pyTruthy name = true →
        generateOutputFilename fold uuid (some name) = slugify fold name ++ ".wav") ∧
    (∀ name, slugify fold name ≠ "" ∧
        (∀ c ∈ (slugify fold name).data, isLowerAlnum c = true ∨ c = '-') ∧
        (∀ c, (slugify fold name).data.head? = some c → c ≠ '-') ∧
        (∀ c, (slugify fold name).data.getLast? = some c → c ≠ '-')) ∧
    (∀ name, isAsciiStr name = true → (∀ c ∈ name.data, isAsciiAlnum c = false) →
        slugify fold name = "routine") ∧
    (("!!!" : String) ≠ "???" ∧
      generateOutputFilename fold "u" (some "!!!") =
        generateOutputFilename fold "u" (some "???")) := by
  refine ⟨?_, ?_, ?_, ?_⟩
  · intro uuid name h
    simp [generateOutputFilename, h]
  · intro name
    rw [slugify_eq]
    by_cases hT :
        pyTruthy (stripHyphens ⟨collapseNonAlnum (pyLower (fold name)).data⟩) = true
    · rw [if_neg (by simp [hT])]
      refine ⟨pyTruthy_ne_empty _ hT, ?_, ?_, ?_⟩
      · intro c hc
        have hsub : c ∈ collapseNonAlnum (pyLower (fold name)).data :=
          stripChars_subset _ _ hc
        exact collapseGo_chars _ false c hsub
      · intro c hc
        have := stripChars_head?_not (fun c => c = '-')
          (collapseNonAlnum (pyLower (fold name)).data) c hc
        simpa using this
      · intro c hc
        have := stripChars_getLast?_not (fun c => c = '-')
          (collapseNonAlnum (pyLower (fold name)).data) c hc
        simpa using this
    · rw [if_pos (by simp [hT])]
      exact ⟨by decide, by decide, by decide, by decide⟩
  · intro name hascii hnal
    have hfid : fold name = name := hfold name hascii
    have h2 : ∀ c ∈ (pyLower (fold name)).data, isLowerAlnum c = false := by
      rw [hfid]
      intro c hc
      simp only [pyLower, List.mem_map] at hc
      obtain ⟨a, ha, rfl⟩ := hc
      exact toLower_not_alnum a (hnal a ha)
    have hcoll := collapseGo_all_nonalnum (pyLower (fold name)).data h2
    rw [slugify_eq]
    by_cases hnil : (pyLower (fold name)).data = []
    · rw [show collapseNonAlnum (pyLower (fold name)).data = [] by
        rw [collapseNonAlnum, hcoll.2, if_pos hnil]]
      decide
    · rw [show collapseNonAlnum (pyLower (fold name)).data = ['-'] by
        rw [collapseNonAlnum, hcoll.2, if_neg hnil]]
      decide
  · refine ⟨by decide, ?_⟩
    have e1 : slugify fold "!!!" = "routine" := by
      rw [slugify_eq, hfold "!!!" (by decide)]
      decide
    have e2 : slugify fold "???" = "routine" := by
      rw [slugify_eq, hfold "???" (by decide)]
      decide
    simp only [generateOutputFilename, e1, e2]
    decide

theorem c10_slug_filename_witness :
    generateOutputFilename id "u" (some "My Routine!") = "my-routine.wav" ∧
    slugify id "!!!" = "routine" := by
  have h := c10_slug_filename id (fun s _ => rfl)
  constructor
  · have h1 := h.1 "u" "My Routine!" (by decide)
    rw [h1]
    decide
  · exact h.2.2.1 "!!!" (by decide) (by decide)

end HypnoAI
